import Mathlib

/-!
Shallow embedding of the OpenMV RPC library (src/openmvrpc.cpp) over `Nat`
byte lists.  Machine integers are modelled as `Nat` with explicit `% 2^w`
truncation at the points where the C code truncates (assignment to a
narrower unsigned type).  Buffers are modelled as `List Nat` of byte
values.  The transport layer (`get_bytes` / `put_bytes` / `millis`) is
abstracted: receive outcomes become explicit parameters or oracles and
emitted transport operations are logged as events where a claim needs
them.
-/

/-- The 256-entry CRC-16/CCITT lookup table, `__crc_16_table` from the
source, transcribed verbatim. -/
def __crc_16_table : List Nat := [
  0x0000, 0x1021, 0x2042, 0x3063, 0x4084, 0x50A5, 0x60C6, 0x70E7,
  0x8108, 0x9129, 0xA14A, 0xB16B, 0xC18C, 0xD1AD, 0xE1CE, 0xF1EF,
  0x1231, 0x0210, 0x3273, 0x2252, 0x52B5, 0x4294, 0x72F7, 0x62D6,
  0x9339, 0x8318, 0xB37B, 0xA35A, 0xD3BD, 0xC39C, 0xF3FF, 0xE3DE,
  0x2462, 0x3443, 0x0420, 0x1401, 0x64E6, 0x74C7, 0x44A4, 0x5485,
  0xA56A, 0xB54B, 0x8528, 0x9509, 0xE5EE, 0xF5CF, 0xC5AC, 0xD58D,
  0x3653, 0x2672, 0x1611, 0x0630, 0x76D7, 0x66F6, 0x5695, 0x46B4,
  0xB75B, 0xA77A, 0x9719, 0x8738, 0xF7DF, 0xE7FE, 0xD79D, 0xC7BC,
  0x48C4, 0x58E5, 0x6886, 0x78A7, 0x0840, 0x1861, 0x2802, 0x3823,
  0xC9CC, 0xD9ED, 0xE98E, 0xF9AF, 0x8948, 0x9969, 0xA90A, 0xB92B,
  0x5AF5, 0x4AD4, 0x7AB7, 0x6A96, 0x1A71, 0x0A50, 0x3A33, 0x2A12,
  0xDBFD, 0xCBDC, 0xFBBF, 0xEB9E, 0x9B79, 0x8B58, 0xBB3B, 0xAB1A,
  0x6CA6, 0x7C87, 0x4CE4, 0x5CC5, 0x2C22, 0x3C03, 0x0C60, 0x1C41,
  0xEDAE, 0xFD8F, 0xCDEC, 0xDDCD, 0xAD2A, 0xBD0B, 0x8D68, 0x9D49,
  0x7E97, 0x6EB6, 0x5ED5, 0x4EF4, 0x3E13, 0x2E32, 0x1E51, 0x0E70,
  0xFF9F, 0xEFBE, 0xDFDD, 0xCFFC, 0xBF1B, 0xAF3A, 0x9F59, 0x8F78,
  0x9188, 0x81A9, 0xB1CA, 0xA1EB, 0xD10C, 0xC12D, 0xF14E, 0xE16F,
  0x1080, 0x00A1, 0x30C2, 0x20E3, 0x5004, 0x4025, 0x7046, 0x6067,
  0x83B9, 0x9398, 0xA3FB, 0xB3DA, 0xC33D, 0xD31C, 0xE37F, 0xF35E,
  0x02B1, 0x1290, 0x22F3, 0x32D2, 0x4235, 0x5214, 0x6277, 0x7256,
  0xB5EA, 0xA5CB, 0x95A8, 0x8589, 0xF56E, 0xE54F, 0xD52C, 0xC50D,
  0x34E2, 0x24C3, 0x14A0, 0x0481, 0x7466, 0x6447, 0x5424, 0x4405,
  0xA7DB, 0xB7FA, 0x8799, 0x97B8, 0xE75F, 0xF77E, 0xC71D, 0xD73C,
  0x26D3, 0x36F2, 0x0691, 0x16B0, 0x6657, 0x7676, 0x4615, 0x5634,
  0xD94C, 0xC96D, 0xF90E, 0xE92F, 0x99C8, 0x89E9, 0xB98A, 0xA9AB,
  0x5844, 0x4865, 0x7806, 0x6827, 0x18C0, 0x08E1, 0x3882, 0x28A3,
  0xCB7D, 0xDB5C, 0xEB3F, 0xFB1E, 0x8BF9, 0x9BD8, 0xABBB, 0xBB9A,
  0x4A75, 0x5A54, 0x6A37, 0x7A16, 0x0AF1, 0x1AD0, 0x2AB3, 0x3A92,
  0xFD2E, 0xED0F, 0xDD6C, 0xCD4D, 0xBDAA, 0xAD8B, 0x9DE8, 0x8DC9,
  0x7C26, 0x6C07, 0x5C64, 0x4C45, 0x3CA2, 0x2C83, 0x1CE0, 0x0CC1,
  0xEF1F, 0xFF3E, 0xCF5D, 0xDF7C, 0xAF9B, 0xBFBA, 0x8FD9, 0x9FF8,
  0x6E17, 0x7E36, 0x4E55, 0x5E74, 0x2E93, 0x3EB2, 0x0ED1, 0x1EF0]

/-- Inverse permutation of the low bytes of `__crc_16_table`:
`__crc_16_low_inv[t % 256] = i` whenever `t` is entry `i` of the table.
Used to show that distinct table indices give entries with distinct low
bytes. -/
def __crc_16_low_inv : List Nat := [
  0, 35, 70, 101, 140, 175, 202, 233, 8, 43, 78, 109, 132, 167, 194, 225,
  17, 50, 87, 116, 157, 190, 219, 248, 25, 58, 95, 124, 149, 182, 211, 240,
  34, 1, 100, 71, 174, 141, 232, 203, 42, 9, 108, 79, 166, 133, 224, 195,
  51, 16, 117, 86, 191, 156, 249, 218, 59, 24, 125, 94, 183, 148, 241, 210,
  68, 103, 2, 33, 200, 235, 142, 173, 76, 111, 10, 41, 192, 227, 134, 165,
  85, 118, 19, 48, 217, 250, 159, 188, 93, 126, 27, 56, 209, 242, 151, 180,
  102, 69, 32, 3, 234, 201, 172, 143, 110, 77, 40, 11, 226, 193, 164, 135,
  119, 84, 49, 18, 251, 216, 189, 158, 127, 92, 57, 26, 243, 208, 181, 150,
  136, 171, 206, 237, 4, 39, 66, 97, 128, 163, 198, 229, 12, 47, 74, 105,
  153, 186, 223, 252, 21, 54, 83, 112, 145, 178, 215, 244, 29, 62, 91, 120,
  170, 137, 236, 207, 38, 5, 96, 67, 162, 129, 228, 199, 46, 13, 104, 75,
  187, 152, 253, 222, 55, 20, 113, 82, 179, 144, 245, 214, 63, 28, 121, 90,
  204, 239, 138, 169, 64, 99, 6, 37, 196, 231, 130, 161, 72, 107, 14, 45,
  221, 254, 155, 184, 81, 114, 23, 52, 213, 246, 147, 176, 89, 122, 31, 60,
  238, 205, 168, 139, 98, 65, 36, 7, 230, 197, 160, 131, 106, 73, 44, 15,
  255, 220, 185, 154, 115, 80, 53, 22, 247, 212, 177, 146, 123, 88, 61, 30]

/-- One step of the table-driven CRC from `rpc::__crc_16`:
`crc = __crc_16_table[((crc >> 8) ^ data[i]) & 0xff] ^ (crc << 8)`, where
the assignment back to the `uint16_t` accumulator truncates to 16 bits. -/
def crc_step (crc d : Nat) : Nat :=
  (__crc_16_table.getD (((crc >>> 8) ^^^ d) &&& 0xff) 0 ^^^ (crc <<< 8)) % 65536

/-- `rpc::__crc_16`: fold the table step over the data starting from
`0xFFFF`. -/
def __crc_16 (data : List Nat) : Nat := data.foldl crc_step 0xFFFF

/-- `rpc::_same`: true when the buffer is nonempty and each byte equals the
previous one (the source walks the buffer comparing `data[i]` with
`data[i-1]`). Helper for the nonempty case, carrying the previous byte. -/
def _same_aux (old_data : Nat) : List Nat → Bool
  | [] => true
  | new_data :: rest => if new_data = old_data then _same_aux new_data rest else false

/-- `rpc::_same` on a byte list: empty buffers report `false`. -/
def _same (data : List Nat) : Bool :=
  match data with
  | [] => false
  | old_data :: rest => _same_aux old_data rest

/-- Value of a `char` converted to `uint32_t` in the hash XOR.  On the
library's AVR targets (the source uses `PGM_P` / `pgm_read_byte`
progmem accessors) plain `char` is signed, so a byte with the high bit
set is sign-extended before the XOR with the `uint32_t` accumulator. -/
def char_as_uint32 (b : Nat) : Nat := if b < 128 then b else 0xFFFFFF00 + b

/-- One iteration of the djb2-XOR loop body `h = ((h << 5) + h) ^ c` in
`uint32_t` arithmetic; `c` is already converted to `uint32_t`. -/
def _hash_step (h c : Nat) : Nat := (((h <<< 5) % 4294967296 + h) % 4294967296) ^^^ c

/-- Shared loop of the two `const char *` hash overloads: consume bytes
until the list ends or a NUL byte is hit, feeding each `char` through
sign extension into the step. -/
def _hash_aux : Nat → List Nat → Nat
  | h, [] => h
  | h, c :: rest => if c = 0 then h else _hash_aux (_hash_step h (char_as_uint32 c)) rest

/-- `rpc::_hash(const char *)`: the list holds the bytes of the string
before its terminating NUL. -/
def _hash (name : List Nat) : Nat := _hash_aux 5381 name

/-- `rpc::_hash(const char *, size_t)`: at most `length` bytes are read,
still stopping at a NUL. -/
def _hash_len (name : List Nat) (length : Nat) : Nat := _hash_aux 5381 (name.take length)

/-- Reference djb2-with-XOR from the spec: the byte value itself
(zero-extended) is XORed in.  Loop of the reference definition. -/
def _hash_ref_aux : Nat → List Nat → Nat
  | h, [] => h
  | h, c :: rest => if c = 0 then h else _hash_ref_aux (_hash_step h c) rest

/-- Reference djb2-with-XOR hash over the bytes up to the first NUL. -/
def _hash_ref (name : List Nat) : Nat := _hash_ref_aux 5381 name

/-- `rpc::_set_packet`: `magic_le16 ∥ payload ∥ crc16_le`, the CRC taken
over magic and payload; byte stores truncate to 8 bits. -/
def _set_packet (magic_value : Nat) (data : List Nat) : List Nat :=
  let crc := __crc_16 (magic_value % 256 :: (magic_value >>> 8) % 256 :: data)
  magic_value % 256 :: (magic_value >>> 8) % 256 :: data ++ [crc % 256, (crc >>> 8) % 256]

/-- Validation performed by `rpc::_get_packet` once `get_bytes` has filled
`buff` with `size` bytes: the leading little-endian magic must equal the
expected value and the trailing little-endian CRC must equal the CRC of
the first `size - 2` bytes. -/
def _get_packet (magic_value : Nat) (buff : List Nat) (size : Nat) : Bool :=
  decide (buff.getD 0 0 ||| (buff.getD 1 0 <<< 8) = magic_value) &&
  decide (buff.getD (size - 2) 0 ||| (buff.getD (size - 1) 0 <<< 8) = __crc_16 (buff.take (size - 2)))

/-- LFSR update on the stream reader side:
`tx_lfsr = (tx_lfsr >> 1) ^ ((tx_lfsr & 1) ? 0xB8 : 0x00)`, truncated by
the `uint8_t` store. -/
def stream_reader_tx_lfsr_next (tx_lfsr : Nat) : Nat :=
  ((tx_lfsr >>> 1) ^^^ (if tx_lfsr &&& 1 ≠ 0 then 0xB8 else 0x00)) % 256

/-- LFSR update on the stream writer side:
`rx_lfsr = (rx_lfsr >> 1) ^ ((rx_lfsr & 1) ? 0xB8 : 0x00)`, truncated by
the `uint8_t` store. -/
def stream_writer_rx_lfsr_next (rx_lfsr : Nat) : Nat :=
  ((rx_lfsr >>> 1) ^^^ (if rx_lfsr &&& 1 ≠ 0 then 0xB8 else 0x00)) % 256

/-- Acknowledgement byte emitted by the stream reader after the n-th
payload (initial state 255). -/
def stream_reader_tx_lfsr_seq : Nat → Nat
  | 0 => 255
  | n + 1 => stream_reader_tx_lfsr_next (stream_reader_tx_lfsr_seq n)

/-- Acknowledgement byte expected by the stream writer for the n-th
acknowledgement (initial state 255). -/
def stream_writer_rx_lfsr_seq : Nat → Nat
  | 0 => 255
  | n + 1 => stream_writer_rx_lfsr_next (stream_writer_rx_lfsr_seq n)

/-- Queue depth negotiated by `rpc::stream_writer`:
`max(min(requested, _stream_writer_queue_depth_max), 1)`. -/
def stream_writer_queue_depth (requested depth_max : Nat) : Nat :=
  max (min requested depth_max) 1

/-- State of the stream writer steady-state loop: remaining credits,
frames emitted and acknowledgement bytes consumed so far. -/
structure WriterState where
  credits : Nat
  sent : Nat
  acked : Nat
  deriving Repr, DecidableEq

/-- First half of a `rpc::stream_writer` loop iteration: when
`credits <= queue_depth / 2` the writer blocks for one acknowledgement
byte and gains a credit. -/
def stream_writer_ack_phase (queue_depth : Nat) (s : WriterState) : WriterState :=
  if s.credits ≤ queue_depth / 2 then ⟨s.credits + 1, s.sent, s.acked + 1⟩ else s

/-- Second half of a `rpc::stream_writer` loop iteration: when
`credits > 0` the writer emits one STREAM_DATA frame and spends a
credit. -/
def stream_writer_send_phase (s : WriterState) : WriterState :=
  if 0 < s.credits then ⟨s.credits - 1, s.sent + 1, s.acked⟩ else s

/-- One full iteration of the steady-state loop. -/
def stream_writer_step (queue_depth : Nat) (s : WriterState) : WriterState :=
  stream_writer_send_phase (stream_writer_ack_phase queue_depth s)

/-- Writer state after `n` loop iterations, starting from
`credits = queue_depth` with nothing sent or acknowledged. -/
def stream_writer_run (queue_depth : Nat) : Nat → WriterState
  | 0 => ⟨queue_depth, 0, 0⟩
  | n + 1 => stream_writer_step queue_depth (stream_writer_run queue_depth n)

/-- `unpack_unsigned_long` on a little-endian byte list (AVR and ARM
targets are little-endian with 4-byte `unsigned long`). -/
def unpack_unsigned_long (data : List Nat) : Nat :=
  data.getD 0 0 ||| (data.getD 1 0 <<< 8) ||| (data.getD 2 0 <<< 16) ||| (data.getD 3 0 <<< 24)

/-- Handling of one received 8-byte stream data header inside the
`rpc::stream_reader` loop, plus the scratch-buffer bound check: the
source rejects the frame (terminating the stream) when
`(magic != 0x542E) && (crc != __crc_16(packet, 6))`, then terminates
unless the announced size fits `_buff_len`; `some size` means the reader
goes on to read `size` payload bytes into the scratch buffer. -/
def stream_reader_step (buff_len : Nat) (packet : List Nat) : Option Nat :=
  let magic := packet.getD 0 0 ||| (packet.getD 1 0 <<< 8)
  let crc := packet.getD 6 0 ||| (packet.getD 7 0 <<< 8)
  if magic ≠ 0x542E ∧ crc ≠ __crc_16 (packet.take 6) then none
  else
    let size := unpack_unsigned_long (packet.drop 2)
    if buff_len < size then none else some size

/-- Validation of the 8-byte setup frame received by
`rpc::stream_writer`: the source proceeds unless
`(magic != 0xEDF6) && (crc != __crc_16(packet, 6))`; `true` means the
frame is treated as present and the stream starts. -/
def stream_writer_setup_ok (packet : List Nat) : Bool :=
  let magic := packet.getD 0 0 ||| (packet.getD 1 0 <<< 8)
  let crc := packet.getD 6 0 ||| (packet.getD 7 0 <<< 8)
  !(decide (magic ≠ 0xEDF6) && decide (crc ≠ __crc_16 (packet.take 6)))

/-- Between-attempt update of the master's short timeouts in
`rpc_master::__put_command` and `rpc_master::__get_result`:
`min((prev * 6) / 4, timeout)`. -/
def master_short_timeout_update (prev timeout : Nat) : Nat :=
  min ((prev * 6) / 4) timeout

/-- Between-attempt update of the slave's short timeouts in
`rpc_slave::__get_command` and `rpc_slave::__put_result`:
`min(prev + 1, timeout)`. -/
def slave_short_timeout_update (prev timeout : Nat) : Nat :=
  min (prev + 1) timeout

/-- A transport operation performed by a handshake loop; the argument of
`put` and `get` is the byte count. -/
inductive Ev where
  | flush
  | put (n : Nat)
  | get (n : Nat)
  deriving Repr, DecidableEq

/-- Retry loop of `rpc_master::__put_command` after the size guard: per
attempt it flushes, sends the 12-byte command header, polls for the
4-byte header ack (outcome `hdr_ack k` on attempt `k`), and on success
sends the `size + 4`-byte data frame and polls for the 4-byte data ack
(outcome `data_ack k`).  `millis` budgeting is abstracted into `fuel`
attempts.  Returns the overall result and the transport log. -/
def put_command_loop (hdr_ack data_ack : Nat → Bool) (size : Nat) : Nat → Nat → Bool × List Ev
  | 0, _ => (false, [])
  | fuel + 1, k =>
    if hdr_ack k then
      if data_ack k then
        (true, [Ev.flush, Ev.put 12, Ev.get 4, Ev.put (size + 4), Ev.get 4])
      else
        let r := put_command_loop hdr_ack data_ack size fuel (k + 1)
        (r.1, [Ev.flush, Ev.put 12, Ev.get 4, Ev.put (size + 4), Ev.get 4] ++ r.2)
    else
      let r := put_command_loop hdr_ack data_ack size fuel (k + 1)
      (r.1, [Ev.flush, Ev.put 12, Ev.get 4] ++ r.2)

/-- `rpc_master::__put_command`: fails with no transport traffic when
`_buff_len < size + 4`, otherwise runs the retry loop. -/
def rpc_master_put_command (buff_len size : Nat) (hdr_ack data_ack : Nat → Bool) (fuel : Nat) : Bool × List Ev :=
  if buff_len < size + 4 then (false, []) else put_command_loop hdr_ack data_ack size fuel 0

/-- Retry loop of `rpc_slave::__put_result` after the size guard: per
attempt it flushes, polls for the 4-byte RESULT_HEADER request, and on
success sends the 8-byte result header, polls for the 4-byte RESULT_DATA
request and finally sends the `size + 4`-byte result frame. -/
def put_result_loop (hdr_req data_req : Nat → Bool) (size : Nat) : Nat → Nat → Bool × List Ev
  | 0, _ => (false, [])
  | fuel + 1, k =>
    if hdr_req k then
      if data_req k then
        (true, [Ev.flush, Ev.get 4, Ev.put 8, Ev.get 4, Ev.put (size + 4)])
      else
        let r := put_result_loop hdr_req data_req size fuel (k + 1)
        (r.1, [Ev.flush, Ev.get 4, Ev.put 8, Ev.get 4] ++ r.2)
    else
      let r := put_result_loop hdr_req data_req size fuel (k + 1)
      (r.1, [Ev.flush, Ev.get 4] ++ r.2)

/-- `rpc_slave::__put_result`: fails with no transport traffic when
`_buff_len < size + 4`, otherwise runs the retry loop. -/
def rpc_slave_put_result (buff_len size : Nat) (hdr_req data_req : Nat → Bool) (fuel : Nat) : Bool × List Ev :=
  if buff_len < size + 4 then (false, []) else put_result_loop hdr_req data_req size fuel 0

/-- Post-exchange logic shared by the copying call variants
(`rpc_master::call` and `rpc_master::call_no_args`).  `exchange` is the
outcome of `__put_command` followed by `__get_result` (`some res` on
success, where `res` holds the returned bytes); `result_data` is the
caller's buffer.  Mirrors: `if (flag) result = result && result_size;
if (result) memcpy(result_data, result_pointer, min(result_data_len,
result_size)); else memset(result_data, 0, result_data_len);`. -/
def call_copy_model (exchange : Option (List Nat))
    (return_false_if_received_data_is_zero : Bool)
    (result_data : List Nat) : Bool × List Nat :=
  match exchange with
  | none => (false, List.replicate result_data.length 0)
  | some res =>
    if return_false_if_received_data_is_zero && decide (res.length = 0) then
      (false, List.replicate result_data.length 0)
    else
      (true, res.take (min result_data.length res.length) ++
             result_data.drop (min result_data.length res.length))

/-- Receive-side guard of `rpc_i2c_master::get_bytes`: once the chunked
read finishes (`read_ok`), the repeat-byte guard `!_same(buff, size)`
is applied; on any failure a backoff `delay(_get_short_timeout)` runs
(recorded as `some timeout`). -/
def rpc_i2c_master_get_bytes (read_ok : Bool) (buff : List Nat) (get_short_timeout : Nat) : Bool × Option Nat :=
  if read_ok then
    let ok := !_same buff
    (ok, if ok then none else some get_short_timeout)
  else
    (false, some get_short_timeout)

/-- Receive-side guard of `rpc_spi_master::get_bytes`: the SPI transfer
always fills the buffer, then `ok = !_same(buff, size)` and on failure a
backoff `delay(_get_short_timeout)` runs. -/
def rpc_spi_master_get_bytes (buff : List Nat) (get_short_timeout : Nat) : Bool × Option Nat :=
  let ok := !_same buff
  (ok, if ok then none else some get_short_timeout)

set_option maxRecDepth 4096 in
theorem crc_table_low_inv : ∀ i, i < 256 →
    __crc_16_low_inv.getD (__crc_16_table.getD i 0 % 256) 0 = i := by decide

set_option maxRecDepth 4096 in
theorem crc_table_lt : ∀ i, i < 256 → __crc_16_table.getD i 0 < 65536 := by decide

theorem crc_table_low_inj {i k : Nat} (hi : i < 256) (hk : k < 256)
    (h : __crc_16_table.getD i 0 % 256 = __crc_16_table.getD k 0 % 256) : i = k := by
  have h1 := crc_table_low_inv i hi
  have h2 := crc_table_low_inv k hk
  rw [h] at h1
  exact h1.symm.trans h2

theorem nat_and_255 (x : Nat) : x &&& 255 = x % 256 := by
  have h := Nat.and_pow_two_sub_one_eq_mod x 8
  norm_num at h
  exact h

theorem nat_and_65535 (x : Nat) : x &&& 65535 = x % 65536 := by
  have h := Nat.and_pow_two_sub_one_eq_mod x 16
  norm_num at h
  exact h

theorem crc_step_lt (c d : Nat) : crc_step c d < 65536 :=
  Nat.mod_lt _ (by norm_num)

theorem xor_mod_two_pow (a b k : Nat) :
    (a ^^^ b) % 2 ^ k = (a % 2 ^ k) ^^^ (b % 2 ^ k) := by
  simp only [← Nat.and_pow_two_sub_one_eq_mod, Nat.and_xor_distrib_right]

theorem crc_step_low (c d : Nat) :
    crc_step c d % 256 = __crc_16_table.getD (((c >>> 8) ^^^ d) &&& 255) 0 % 256 := by
  unfold crc_step
  rw [Nat.mod_mod_of_dvd _ (by norm_num : (256 : Nat) ∣ 65536)]
  rw [show (256 : Nat) = 2 ^ 8 by norm_num, xor_mod_two_pow,
    Nat.shiftLeft_eq, Nat.mul_mod_left, Nat.xor_zero]

theorem crc_index_eq (c d : Nat) :
    ((c >>> 8) ^^^ d) &&& 255 = ((c >>> 8) % 256) ^^^ (d % 256) := by
  rw [Nat.and_xor_distrib_right, nat_and_255, nat_and_255]

theorem crc_step_inj_state {c1 c2 : Nat} (h1 : c1 < 65536) (h2 : c2 < 65536) (d : Nat)
    (he : crc_step c1 d = crc_step c2 d) : c1 = c2 := by
  have hj1 : ((c1 >>> 8) ^^^ d) &&& 255 < 256 := Nat.lt_succ_of_le Nat.and_le_right
  have hj2 : ((c2 >>> 8) ^^^ d) &&& 255 < 256 := Nat.lt_succ_of_le Nat.and_le_right
  have hlow : __crc_16_table.getD (((c1 >>> 8) ^^^ d) &&& 255) 0 % 256 =
      __crc_16_table.getD (((c2 >>> 8) ^^^ d) &&& 255) 0 % 256 := by
    rw [← crc_step_low, ← crc_step_low, he]
  have hjeq : ((c1 >>> 8) ^^^ d) &&& 255 = ((c2 >>> 8) ^^^ d) &&& 255 :=
    crc_table_low_inj hj1 hj2 hlow
  -- high-byte halves of the two states agree
  have hd1 : c1 >>> 8 < 256 := by
    rw [Nat.shiftRight_eq_div_pow]
    omega
  have hd2 : c2 >>> 8 < 256 := by
    rw [Nat.shiftRight_eq_div_pow]
    omega
  have hhi : c1 >>> 8 = c2 >>> 8 := by
    rw [crc_index_eq, crc_index_eq, Nat.mod_eq_of_lt hd1, Nat.mod_eq_of_lt hd2] at hjeq
    have := congrArg (fun x => x ^^^ (d % 256)) hjeq
    simpa [Nat.xor_assoc] using this
  -- low-byte halves agree, via xor cancellation in the step equation
  have htlt : __crc_16_table.getD (((c1 >>> 8) ^^^ d) &&& 255) 0 < 65536 :=
    crc_table_lt _ hj1
  have hexp : ∀ c : Nat, crc_step c d =
      __crc_16_table.getD (((c >>> 8) ^^^ d) &&& 255) 0 ^^^ (c % 256) * 256 := by
    intro c
    unfold crc_step
    rw [show (65536 : Nat) = 2 ^ 16 by norm_num, xor_mod_two_pow, Nat.shiftLeft_eq]
    congr 1
    · exact Nat.mod_eq_of_lt (by
        rw [show (2 : Nat) ^ 16 = 65536 by norm_num]
        exact crc_table_lt _ (Nat.lt_succ_of_le Nat.and_le_right))
    · rw [show (2 : Nat) ^ 16 = 256 * 2 ^ 8 by norm_num, Nat.mul_mod_mul_right]
  rw [hexp, hexp, hjeq] at he
  have hlo : c1 % 256 * 256 = c2 % 256 * 256 := by
    have := congrArg (fun x => __crc_16_table.getD (((c2 >>> 8) ^^^ d) &&& 255) 0 ^^^ x) he
    simpa [← Nat.xor_assoc] using this
  have hlo2 : c1 % 256 = c2 % 256 := by omega
  have e1 := Nat.div_add_mod c1 256
  have e2 := Nat.div_add_mod c2 256
  rw [Nat.shiftRight_eq_div_pow] at hhi
  norm_num at hhi
  omega

theorem crc_step_inj_byte {d1 d2 : Nat} (c : Nat) (h1 : d1 < 256) (h2 : d2 < 256)
    (hne : d1 ≠ d2) : crc_step c d1 ≠ crc_step c d2 := by
  intro he
  have hj1 : ((c >>> 8) ^^^ d1) &&& 255 < 256 := Nat.lt_succ_of_le Nat.and_le_right
  have hj2 : ((c >>> 8) ^^^ d2) &&& 255 < 256 := Nat.lt_succ_of_le Nat.and_le_right
  have hlow : __crc_16_table.getD (((c >>> 8) ^^^ d1) &&& 255) 0 % 256 =
      __crc_16_table.getD (((c >>> 8) ^^^ d2) &&& 255) 0 % 256 := by
    rw [← crc_step_low, ← crc_step_low, he]
  have hjeq := crc_table_low_inj hj1 hj2 hlow
  rw [crc_index_eq, crc_index_eq, Nat.mod_eq_of_lt h1, Nat.mod_eq_of_lt h2] at hjeq
  have := congrArg (fun x => (c >>> 8) % 256 ^^^ x) hjeq
  simp only [Nat.xor_cancel_left] at this
  exact hne this

theorem crc_fold_lt : ∀ (l : List Nat) (c : Nat), c < 65536 →
    List.foldl crc_step c l < 65536 := by
  intro l
  induction l with
  | nil => intro c hc; simpa using hc
  | cons d rest ih =>
    intro c hc
    simpa using ih (crc_step c d) (crc_step_lt c d)

theorem crc_fold_inj : ∀ (l : List Nat) (c1 c2 : Nat), c1 < 65536 → c2 < 65536 →
    c1 ≠ c2 → List.foldl crc_step c1 l ≠ List.foldl crc_step c2 l := by
  intro l
  induction l with
  | nil => intro c1 c2 _ _ hne; simpa using hne
  | cons d rest ih =>
    intro c1 c2 h1 h2 hne
    simp only [List.foldl_cons]
    exact ih _ _ (crc_step_lt c1 d) (crc_step_lt c2 d)
      (fun he => hne (crc_step_inj_state h1 h2 d he))

theorem __crc_16_lt (data : List Nat) : __crc_16 data < 65536 :=
  crc_fold_lt data 0xFFFF (by norm_num)

theorem crc_single_byte_ne (pre suf : List Nat) {b b' : Nat} (hb : b < 256)
    (hb' : b' < 256) (hne : b ≠ b') :
    __crc_16 (pre ++ b :: suf) ≠ __crc_16 (pre ++ b' :: suf) := by
  unfold __crc_16
  rw [List.foldl_append, List.foldl_append, List.foldl_cons, List.foldl_cons]
  have hs : List.foldl crc_step 0xFFFF pre < 65536 :=
    crc_fold_lt pre 0xFFFF (by norm_num)
  exact crc_fold_inj suf _ _ (crc_step_lt _ _) (crc_step_lt _ _)
    (crc_step_inj_byte _ hb hb' hne)

theorem lor_shiftRight (x y k : Nat) : (x ||| y) >>> k = (x >>> k) ||| (y >>> k) := by
  apply Nat.eq_of_testBit_eq
  intro i
  simp [Nat.testBit_lor]

theorem lor_shift8_eq {b0 : Nat} (b1 : Nat) (h : b0 < 256) :
    b0 ||| (b1 <<< 8) = b1 * 256 + b0 := by
  have hmod : (b0 ||| (b1 <<< 8)) % 256 = b0 := by
    rw [← nat_and_255, Nat.and_distrib_right, nat_and_255, nat_and_255,
      Nat.shiftLeft_eq, Nat.mod_eq_of_lt h]
    norm_num [Nat.mul_mod_left]
  have hdiv : (b0 ||| (b1 <<< 8)) / 256 = b1 := by
    have h8 : (b0 ||| (b1 <<< 8)) >>> 8 = (b0 >>> 8) ||| ((b1 <<< 8) >>> 8) :=
      lor_shiftRight _ _ 8
    have e0 : b0 >>> 8 = 0 := by
      rw [Nat.shiftRight_eq_div_pow]
      omega
    have e1 : (b1 <<< 8) >>> 8 = b1 := by
      rw [Nat.shiftLeft_eq, Nat.shiftRight_eq_div_pow]
      omega
    rw [e0, e1, Nat.zero_or, Nat.shiftRight_eq_div_pow] at h8
    simpa using h8
  have := Nat.div_add_mod (b0 ||| (b1 <<< 8)) 256
  omega

theorem getD_append_lt (l1 l2 : List Nat) : ∀ k, k < l1.length →
    (l1 ++ l2).getD k 0 = l1.getD k 0 := by
  induction l1 with
  | nil => intro k hk; simp at hk
  | cons a rest ih =>
    intro k hk
    match k with
    | 0 => rfl
    | k + 1 =>
      simp only [List.cons_append, List.getD_cons_succ]
      exact ih k (by simpa using hk)

theorem getD_append_len (l1 l2 : List Nat) : ∀ k,
    (l1 ++ l2).getD (l1.length + k) 0 = l2.getD k 0 := by
  induction l1 with
  | nil => intro k; simp
  | cons a rest ih =>
    intro k
    simpa [List.cons_append, Nat.succ_add, List.getD_cons_succ] using ih k

theorem set_append_lt (l1 l2 : List Nat) (b : Nat) : ∀ k, k < l1.length →
    (l1 ++ l2).set k b = l1.set k b ++ l2 := by
  induction l1 with
  | nil => intro k hk; simp at hk
  | cons a rest ih =>
    intro k hk
    match k with
    | 0 => rfl
    | k + 1 =>
      simp only [List.cons_append, List.set_cons_succ]
      rw [ih k (by simpa using hk)]

theorem set_append_len (l1 l2 : List Nat) (b : Nat) : ∀ k,
    (l1 ++ l2).set (l1.length + k) b = l1 ++ l2.set k b := by
  induction l1 with
  | nil => intro k; simp
  | cons a rest ih =>
    intro k
    simp only [List.cons_append, List.length_cons, Nat.succ_add, List.set_cons_succ]
    rw [ih k]

theorem list_split_getD (l : List Nat) : ∀ k, k < l.length →
    l = l.take k ++ l.getD k 0 :: l.drop (k + 1) := by
  induction l with
  | nil => intro k hk; simp at hk
  | cons a rest ih =>
    intro k hk
    match k with
    | 0 => simp
    | k + 1 =>
      simp only [List.take_succ_cons, List.getD_cons_succ, List.drop_succ_cons,
        List.cons_append]
      exact congrArg (a :: ·) (ih k (by simpa using hk))

theorem list_set_split (l : List Nat) (b : Nat) : ∀ k, k < l.length →
    l.set k b = l.take k ++ b :: l.drop (k + 1) := by
  induction l with
  | nil => intro k hk; simp at hk
  | cons a rest ih =>
    intro k hk
    match k with
    | 0 => simp
    | k + 1 =>
      simp only [List.set_cons_succ, List.take_succ_cons, List.drop_succ_cons,
        List.cons_append]
      exact congrArg (a :: ·) (ih k (by simpa using hk))

theorem getD_lt_of_forall {l : List Nat} (h : ∀ b ∈ l, b < 256) :
    ∀ k, k < l.length → l.getD k 0 < 256 := by
  induction l with
  | nil => intro k hk; simp at hk
  | cons a rest ih =>
    intro k hk
    match k with
    | 0 => exact h a (List.mem_cons_self a rest)
    | k + 1 =>
      exact ih (fun b hb => h b (List.mem_cons_of_mem a hb)) k (by simpa using hk)

/-- Claim C3 (corrected): the acknowledgement sequences of the stream
reader and stream writer are identical, both starting at 255 and
applying `s = (s >> 1) ^ ((s & 1) ? 0xB8 : 0)` after each byte; the
resulting sequence begins 255, 199, 219, 213, 210 (not 255, 127, 191,
95, 175 as listed in the claim). -/
theorem lfsr_sequences_agree :
    (∀ n, stream_reader_tx_lfsr_seq n = stream_writer_rx_lfsr_seq n) ∧
    stream_reader_tx_lfsr_seq 0 = 255 ∧ stream_reader_tx_lfsr_seq 1 = 199 ∧
    stream_reader_tx_lfsr_seq 2 = 219 ∧ stream_reader_tx_lfsr_seq 3 = 213 ∧
    stream_reader_tx_lfsr_seq 4 = 210 := by
  refine ⟨?_, by decide, by decide, by decide, by decide, by decide⟩
  intro n
  induction n with
  | zero => rfl
  | succ n ih =>
    simp only [stream_reader_tx_lfsr_seq, stream_writer_rx_lfsr_seq,
      stream_reader_tx_lfsr_next, stream_writer_rx_lfsr_next, ih]

/-- Counterexample for claim C3 as stated: the second value of the code's
acknowledgement sequence is 199, not the 127 listed in the claim. -/
theorem lfsr_second_ack_not_127 :
    stream_reader_tx_lfsr_seq 1 = 199 ∧ stream_writer_rx_lfsr_seq 1 = 199 ∧
    stream_reader_tx_lfsr_seq 1 ≠ 127 := by decide

theorem stream_writer_ack_inv (D : Nat) (hD : 1 ≤ D) (s : WriterState)
    (h1 : s.sent + s.credits = s.acked + D) (h2 : s.credits ≤ D) :
    (stream_writer_ack_phase D s).sent + (stream_writer_ack_phase D s).credits =
      (stream_writer_ack_phase D s).acked + D ∧
    (stream_writer_ack_phase D s).credits ≤ D := by
  unfold stream_writer_ack_phase
  split
  · refine ⟨?_, ?_⟩ <;> dsimp only <;> omega
  · exact ⟨h1, h2⟩

theorem stream_writer_send_inv (D : Nat) (s : WriterState)
    (h1 : s.sent + s.credits = s.acked + D) (h2 : s.credits ≤ D) :
    (stream_writer_send_phase s).sent + (stream_writer_send_phase s).credits =
      (stream_writer_send_phase s).acked + D ∧
    (stream_writer_send_phase s).credits ≤ D := by
  unfold stream_writer_send_phase
  split
  · refine ⟨?_, ?_⟩ <;> dsimp only <;> omega
  · exact ⟨h1, h2⟩

theorem stream_writer_run_inv (D : Nat) (hD : 1 ≤ D) : ∀ n,
    (stream_writer_run D n).sent + (stream_writer_run D n).credits =
      (stream_writer_run D n).acked + D ∧
    (stream_writer_run D n).credits ≤ D := by
  intro n
  induction n with
  | zero => exact ⟨rfl, Nat.le_refl D⟩
  | succ n ih =>
    obtain ⟨h1, h2⟩ := ih
    obtain ⟨h3, h4⟩ := stream_writer_ack_inv D hD _ h1 h2
    exact stream_writer_send_inv D _ h3 h4

/-- Claim C4: with the negotiated depth
`D = max(min(requested, depth_max), 1)`, at every point of the writer's
steady-state loop — after any number of full iterations and also at the
mid-point between the acknowledgement phase and the send phase — the
number of STREAM_DATA frames emitted never exceeds the number of
acknowledgement bytes consumed plus `D`. -/
theorem stream_writer_flow_control (requested depth_max n : Nat) :
    (stream_writer_run (stream_writer_queue_depth requested depth_max) n).sent ≤
      (stream_writer_run (stream_writer_queue_depth requested depth_max) n).acked +
        stream_writer_queue_depth requested depth_max ∧
    (stream_writer_ack_phase (stream_writer_queue_depth requested depth_max)
        (stream_writer_run (stream_writer_queue_depth requested depth_max) n)).sent ≤
      (stream_writer_ack_phase (stream_writer_queue_depth requested depth_max)
        (stream_writer_run (stream_writer_queue_depth requested depth_max) n)).acked +
        stream_writer_queue_depth requested depth_max := by
  have hD : 1 ≤ stream_writer_queue_depth requested depth_max :=
    Nat.le_max_right _ 1
  obtain ⟨h1, h2⟩ := stream_writer_run_inv _ hD n
  obtain ⟨h3, h4⟩ := stream_writer_ack_inv _ hD _ h1 h2
  exact ⟨by omega, by omega⟩

/-- Claim C5: between retry attempts the master handshake loops set each
short timeout to `min((prev * 6) / 4, budget)`, which is
`min(floor(prev * 1.5), budget)`, and the slave loops set it to
`min(prev + 1, budget)`; either way the updated value never exceeds the
total budget. -/
theorem short_timeout_updates_bounded (prev timeout : Nat) :
    master_short_timeout_update prev timeout = min ((3 * prev) / 2) timeout ∧
    slave_short_timeout_update prev timeout = min (prev + 1) timeout ∧
    master_short_timeout_update prev timeout ≤ timeout ∧
    slave_short_timeout_update prev timeout ≤ timeout := by
  refine ⟨?_, rfl, Nat.min_le_right _ _, Nat.min_le_right _ _⟩
  unfold master_short_timeout_update
  congr 1
  omega

theorem same_aux_of_all : ∀ (l : List Nat) (v : Nat), (∀ x ∈ l, x = v) →
    _same_aux v l = true := by
  intro l
  induction l with
  | nil => intro v _; rfl
  | cons x xs ih =>
    intro v hall
    have hx : x = v := hall x (List.mem_cons_self x xs)
    unfold _same_aux
    rw [if_pos hx]
    exact ih x (fun y hy => (hall y (List.mem_cons_of_mem x hy)).trans hx.symm)

theorem same_aux_all_eq : ∀ (l : List Nat) (v : Nat), _same_aux v l = true →
    ∀ x ∈ l, x = v := by
  intro l
  induction l with
  | nil => intro v _ x hx; simp at hx
  | cons y ys ih =>
    intro v h x hx
    unfold _same_aux at h
    by_cases hy : y = v
    · rw [if_pos hy] at h
      rcases List.mem_cons.mp hx with hx1 | hx2
      · exact hx1.trans hy
      · exact ((ih y h x hx2).trans hy)
    · rw [if_neg hy] at h
      exact absurd h (by simp)

theorem same_true_all_eq {l : List Nat} (h : _same l = true) :
    ∀ a ∈ l, ∀ b ∈ l, a = b := by
  match l with
  | [] => intro a ha; simp at ha
  | v :: rest =>
    intro a ha b hb
    unfold _same at h
    have hv : ∀ x ∈ v :: rest, x = v := by
      intro x hx
      rcases List.mem_cons.mp hx with hx1 | hx2
      · exact hx1
      · exact same_aux_all_eq rest v h x hx2
    exact (hv a ha).trans (hv b hb).symm

/-- Claim C9: on the SPI and I2C master transports, a fully received
buffer consisting of a single repeated byte is rejected (`false`) with a
backoff delay equal to the current `_get_short_timeout`, while a buffer
with two distinct byte values passes the repeat-byte guard. -/
theorem repeat_byte_guard (buff : List Nat) (g : Nat) :
    (∀ v rest, buff = v :: rest → (∀ x ∈ rest, x = v) →
      rpc_i2c_master_get_bytes true buff g = (false, some g) ∧
      rpc_spi_master_get_bytes buff g = (false, some g)) ∧
    (∀ a b, a ∈ buff → b ∈ buff → a ≠ b →
      rpc_i2c_master_get_bytes true buff g = (true, none) ∧
      rpc_spi_master_get_bytes buff g = (true, none)) := by
  constructor
  · intro v rest hbuff hall
    subst hbuff
    have hs : _same (v :: rest) = true := same_aux_of_all rest v hall
    constructor
    · unfold rpc_i2c_master_get_bytes
      rw [if_pos rfl, hs]
      rfl
    · unfold rpc_spi_master_get_bytes
      rw [hs]
      rfl
  · intro a b ha hb hne
    have hs : _same buff = false := by
      cases h : _same buff with
      | false => rfl
      | true => exact absurd (same_true_all_eq h a ha b hb) hne
    constructor
    · unfold rpc_i2c_master_get_bytes
      rw [if_pos rfl, hs]
      rfl
    · unfold rpc_spi_master_get_bytes
      rw [hs]
      rfl

/-- Concrete instance of claim C9: an all-equal 3-byte buffer is
rejected with backoff 2; a buffer holding two distinct bytes passes. -/
theorem repeat_byte_guard_witness :
    rpc_i2c_master_get_bytes true [7, 7, 7] 2 = (false, some 2) ∧
    rpc_spi_master_get_bytes [1, 2] 5 = (true, none) :=
  ⟨((repeat_byte_guard [7, 7, 7] 2).1 7 [7, 7] rfl (by decide)).1,
   ((repeat_byte_guard [1, 2] 5).2 1 2 (by decide) (by decide) (by decide)).2⟩

/-- Claim C7: in the copying call variants, when the exchange succeeds
but the result is empty and the fail-on-empty flag is set the call
returns `false`; whenever the call returns `false` the whole caller
buffer is zeroed; on success exactly
`min(result_data_len, result_size)` bytes of the result are copied in
and the rest of the caller buffer is untouched. -/
theorem call_copy_semantics (exchange : Option (List Nat)) (flag : Bool)
    (result_data : List Nat) :
    (∀ res, exchange = some res → res.length = 0 → flag = true →
      (call_copy_model exchange flag result_data).1 = false) ∧
    ((call_copy_model exchange flag result_data).1 = false →
      (call_copy_model exchange flag result_data).2 =
        List.replicate result_data.length 0) ∧
    (∀ res, exchange = some res →
      (call_copy_model exchange flag result_data).1 = true →
      (call_copy_model exchange flag result_data).2 =
        res.take (min result_data.length res.length) ++
          result_data.drop (min result_data.length res.length)) := by
  have hred : ∀ res0 : List Nat, call_copy_model (some res0) flag result_data =
      if (flag && decide (res0.length = 0)) = true then
        (false, List.replicate result_data.length 0)
      else
        (true, res0.take (min result_data.length res0.length) ++
          result_data.drop (min result_data.length res0.length)) := fun _ => rfl
  match exchange with
  | none =>
    refine ⟨?_, ?_, ?_⟩
    · intro res h
      cases h
    · intro _
      rfl
    · intro res h
      cases h
  | some res0 =>
    refine ⟨?_, ?_, ?_⟩
    · intro res h hlen hflag
      injection h with h
      subst h
      rw [hred, if_pos (by simp [hflag, hlen])]
    · intro h
      rw [hred] at h ⊢
      by_cases hc : (flag && decide (res0.length = 0)) = true
      · rw [if_pos hc]
      · rw [if_neg hc] at h
        simp at h
    · intro res h htrue
      injection h with h
      subst h
      rw [hred] at htrue ⊢
      by_cases hc : (flag && decide (res0.length = 0)) = true
      · rw [if_pos hc] at htrue
        simp at htrue
      · rw [if_neg hc]

/-- Concrete instance of claim C7: an empty result with the
fail-on-empty flag set fails and zeroes the two-byte caller buffer. -/
theorem call_copy_semantics_witness :
    (call_copy_model (some []) true [5, 6]).1 = false ∧
    (call_copy_model (some []) true [5, 6]).2 = List.replicate 2 0 :=
  ⟨(call_copy_semantics (some []) true [5, 6]).1 [] rfl rfl rfl,
   (call_copy_semantics (some []) true [5, 6]).2.1
     ((call_copy_semantics (some []) true [5, 6]).1 [] rfl rfl rfl)⟩

/-- Claim C6: the size guards of `rpc_master::__put_command` and
`rpc_slave::__put_result` fail immediately, with no flush, put or get,
whenever `buff_len < size + 4`; in particular a request of length
`buff_len - 3` always fails with no transport traffic. -/
theorem put_size_guard (buff_len size fuel : Nat) (o1 o2 o3 o4 : Nat → Bool) :
    (buff_len < size + 4 →
      rpc_master_put_command buff_len size o1 o2 fuel = (false, []) ∧
      rpc_slave_put_result buff_len size o3 o4 fuel = (false, [])) ∧
    rpc_master_put_command buff_len (buff_len - 3) o1 o2 fuel = (false, []) := by
  constructor
  · intro h
    constructor
    · unfold rpc_master_put_command
      rw [if_pos h]
    · unfold rpc_slave_put_result
      rw [if_pos h]
  · unfold rpc_master_put_command
    rw [if_pos (by omega)]

/-- Concrete instance of claim C6: with an 8-byte scratch buffer a
5-byte request trips the guard on both sides. -/
theorem put_size_guard_witness :
    8 < 5 + 4 ∧
    rpc_master_put_command 8 5 (fun _ => true) (fun _ => true) 3 = (false, []) ∧
    rpc_slave_put_result 8 5 (fun _ => true) (fun _ => true) 3 = (false, []) :=
  ⟨by decide,
   ((put_size_guard 8 5 3 (fun _ => true) (fun _ => true) (fun _ => true)
      (fun _ => true)).1 (by decide)).1,
   ((put_size_guard 8 5 3 (fun _ => true) (fun _ => true) (fun _ => true)
      (fun _ => true)).1 (by decide)).2⟩

/-- Claim C10: the stream reader reads an announced payload into the
scratch buffer only when its size is at most `buff_len` (terminating
otherwise), and a header announcing exactly `buff_len` bytes is
accepted — the `buff_len - 4` cap on call payloads does not apply to
stream payloads. -/
theorem stream_reader_size_guard (buff_len : Nat) (packet : List Nat) :
    (∀ size, stream_reader_step buff_len packet = some size → size ≤ buff_len) ∧
    (packet.getD 0 0 ||| (packet.getD 1 0 <<< 8) = 0x542E →
      unpack_unsigned_long (packet.drop 2) = buff_len →
      stream_reader_step buff_len packet = some buff_len) := by
  have hred : stream_reader_step buff_len packet =
      if (packet.getD 0 0 ||| (packet.getD 1 0 <<< 8)) ≠ 0x542E ∧
          (packet.getD 6 0 ||| (packet.getD 7 0 <<< 8)) ≠ __crc_16 (packet.take 6) then
        none
      else if buff_len < unpack_unsigned_long (packet.drop 2) then none
      else some (unpack_unsigned_long (packet.drop 2)) := rfl
  constructor
  · intro size h
    rw [hred] at h
    split at h
    · cases h
    · split at h
      · cases h
      · cases h
        omega
  · intro hm hu
    rw [hred, if_neg (fun hc => hc.1 hm), hu, if_neg (Nat.lt_irrefl buff_len)]

set_option maxRecDepth 4096 in
/-- Concrete instance of claim C10: a valid STREAM_DATA header
announcing exactly `buff_len = 3` bytes is accepted, even though
`3 > buff_len - 4`. -/
theorem stream_reader_size_guard_witness :
    stream_reader_step 3 (_set_packet 0x542E [3, 0, 0, 0]) = some 3 :=
  (stream_reader_size_guard 3 (_set_packet 0x542E [3, 0, 0, 0])).2
    (by decide) (by decide)

set_option maxRecDepth 4096 in
/-- Claim C2 (code bug): because the stream-side checks use
`(magic != expected) && (crc != computed)`, a frame whose magic is wrong
but whose CRC is valid is accepted by both `rpc::stream_writer` (setup
frame) and `rpc::stream_reader` (data header), contradicting the rule
that a frame failing either check is treated as absent. -/
theorem stream_checks_accept_bad_magic :
    stream_writer_setup_ok (_set_packet 0x1234 [1, 0, 0, 0]) = true ∧
    (_set_packet 0x1234 [1, 0, 0, 0]).getD 0 0 |||
      ((_set_packet 0x1234 [1, 0, 0, 0]).getD 1 0 <<< 8) ≠ 0xEDF6 ∧
    stream_reader_step 64 (_set_packet 0x1234 [0, 0, 0, 0]) = some 0 ∧
    (_set_packet 0x1234 [0, 0, 0, 0]).getD 0 0 |||
      ((_set_packet 0x1234 [0, 0, 0, 0]).getD 1 0 <<< 8) ≠ 0x542E := by decide

theorem hash_aux_ref_of_low : ∀ (l : List Nat) (h0 : Nat), (∀ b ∈ l, b < 128) →
    _hash_aux h0 l = _hash_ref_aux h0 l := by
  intro l
  induction l with
  | nil => intro h0 _; rfl
  | cons c rest ih =>
    intro h0 hall
    unfold _hash_aux _hash_ref_aux
    by_cases hc : c = 0
    · rw [if_pos hc, if_pos hc]
    · rw [if_neg hc, if_neg hc]
      have hcc : char_as_uint32 c = c := by
        unfold char_as_uint32
        rw [if_pos (hall c (List.mem_cons_self c rest))]
      rw [hcc]
      exact ih _ (fun b hb => hall b (List.mem_cons_of_mem c hb))

/-- Claim C8 (corrected): the two `const char *` hash overloads agree
with each other on every input, and they match the reference
byte-valued djb2-XOR definition whenever every byte is below 128; a
byte with the high bit set is sign-extended by the `char` XOR (AVR
`char` is signed), diverging from the reference. -/
theorem hash_overloads_agree_and_match_ref_on_ascii :
    (∀ name : List Nat, _hash_len name name.length = _hash name) ∧
    (∀ name : List Nat, (∀ b ∈ name, b < 128) → _hash name = _hash_ref name) := by
  constructor
  · intro name
    unfold _hash_len _hash
    rw [List.take_length]
  · intro name h
    exact hash_aux_ref_of_low name 5381 h

/-- Concrete instance of claim C8: on an ASCII-only name the code hash
equals the reference hash. -/
theorem hash_overloads_witness :
    (∀ b ∈ [104, 105], b < 128) ∧ _hash [104, 105] = _hash_ref [104, 105] :=
  ⟨by decide, hash_overloads_agree_and_match_ref_on_ascii.2 [104, 105] (by decide)⟩

/-- Counterexample for claim C8 as stated: on the single byte 0x80 the
code hash (sign-extending XOR) differs from the reference
djb2-with-XOR value. -/
theorem hash_high_bit_byte_diverges :
    _hash [128] ≠ _hash_ref [128] ∧ _hash [128] = 0xFFFD4A25 ∧
    _hash_ref [128] = 177445 := by decide

theorem set_packet_def (magic : Nat) (data : List Nat) :
    _set_packet magic data =
      (magic % 256 :: (magic >>> 8) % 256 :: data) ++
        [__crc_16 (magic % 256 :: (magic >>> 8) % 256 :: data) % 256,
         (__crc_16 (magic % 256 :: (magic >>> 8) % 256 :: data) >>> 8) % 256] := rfl

theorem set_packet_length (magic : Nat) (data : List Nat) :
    (_set_packet magic data).length = data.length + 4 := by
  rw [set_packet_def, List.length_append]
  simp only [List.length_cons, List.length_nil]

theorem le16_recon {v : Nat} (h : v < 65536) :
    (v % 256) ||| (((v >>> 8) % 256) <<< 8) = v := by
  have h8 : v >>> 8 = v / 256 := by
    rw [Nat.shiftRight_eq_div_pow]
  rw [h8, Nat.mod_eq_of_lt (by omega : v / 256 < 256),
    lor_shift8_eq _ (Nat.mod_lt _ (by norm_num))]
  omega

theorem getD_append_fst (l1 : List Nat) (x y : Nat) :
    (l1 ++ [x, y]).getD l1.length 0 = x := by
  have h := getD_append_len l1 [x, y] 0
  simpa using h

theorem getD_append_snd (l1 : List Nat) (x y : Nat) :
    (l1 ++ [x, y]).getD (l1.length + 1) 0 = y := by
  have h := getD_append_len l1 [x, y] 1
  simpa using h

/-- Claim C1: a frame produced by `rpc::_set_packet` is accepted by the
`rpc::_get_packet` validation with the same expected magic and total
size, and flipping any single byte of the encoded frame — in the magic,
the payload or the CRC — makes the validation fail. -/
theorem crc_roundtrip_and_byte_flip (magic : Nat) (data : List Nat)
    (hm : magic < 65536) (hd : ∀ b ∈ data, b < 256) :
    _get_packet magic (_set_packet magic data) (data.length + 4) = true ∧
    (∀ i, i < (_set_packet magic data).length → ∀ b', b' < 256 →
      b' ≠ (_set_packet magic data).getD i 0 →
      _get_packet magic ((_set_packet magic data).set i b') (data.length + 4) = false) := by
  have hpkt := set_packet_def magic data
  set pre := magic % 256 :: (magic >>> 8) % 256 :: data with hpre
  set crc := __crc_16 pre with hcrc
  have hprelen : pre.length = data.length + 2 := by
    rw [hpre]
    simp only [List.length_cons]
  have hcrclt : crc < 65536 := by
    rw [hcrc]
    exact __crc_16_lt pre
  have h8m : magic >>> 8 = magic / 256 := by
    rw [Nat.shiftRight_eq_div_pow]
  have h8c : crc >>> 8 = crc / 256 := by
    rw [Nat.shiftRight_eq_div_pow]
  have e2 : data.length + 4 - 2 = pre.length := by omega
  have e3 : data.length + 4 - 1 = pre.length + 1 := by omega
  have hg0 : ∀ l2 : List Nat, (pre ++ l2).getD 0 0 = magic % 256 := by
    intro l2
    rw [hpre]
    rfl
  have hg1 : ∀ l2 : List Nat, (pre ++ l2).getD 1 0 = (magic >>> 8) % 256 := by
    intro l2
    rw [hpre]
    rfl
  constructor
  · -- round trip
    rw [hpkt]
    unfold _get_packet
    rw [e2, e3, getD_append_fst, getD_append_snd, List.take_left, hg0, hg1, ← hcrc,
      le16_recon hm, le16_recon hcrclt]
    simp
  · -- single byte flips
    intro i hi b' hb' hne
    rw [set_packet_length] at hi
    rw [hpkt] at hne ⊢
    rcases i with _ | i
    · -- low magic byte
      rw [hg0] at hne
      rw [hpre]
      simp only [List.cons_append, List.set_cons_zero]
      unfold _get_packet
      simp only [List.getD_cons_zero, List.getD_cons_succ]
      have hneq : b' ||| (((magic >>> 8) % 256) <<< 8) ≠ magic := by
        rw [lor_shift8_eq _ hb', h8m, Nat.mod_eq_of_lt (by omega : magic / 256 < 256)]
        omega
      rw [decide_eq_false hneq, Bool.false_and]
    rcases i with _ | k
    · -- high magic byte
      rw [hg1] at hne
      rw [hpre]
      simp only [List.cons_append, List.set_cons_succ, List.set_cons_zero]
      unfold _get_packet
      simp only [List.getD_cons_zero, List.getD_cons_succ]
      have hneq : (magic % 256) ||| (b' <<< 8) ≠ magic := by
        rw [lor_shift8_eq _ (Nat.mod_lt _ (by norm_num))]
        rw [h8m, Nat.mod_eq_of_lt (by omega : magic / 256 < 256)] at hne
        omega
      rw [decide_eq_false hneq, Bool.false_and]
    by_cases hk : k < data.length
    · -- payload byte
      have hgd : (pre ++ [crc % 256, (crc >>> 8) % 256]).getD (k + 2) 0 = data.getD k 0 := by
        rw [getD_append_lt _ _ _ (by omega), hpre]
        simp only [List.getD_cons_succ]
      rw [hgd] at hne
      rw [set_append_lt _ _ _ _ (by omega : k + 2 < pre.length)]
      have hset : pre.set (k + 2) b' = magic % 256 :: (magic >>> 8) % 256 :: data.set k b' := by
        rw [hpre]
        simp only [List.set_cons_succ]
      rw [hset]
      have hlen2 : (magic % 256 :: (magic >>> 8) % 256 :: data.set k b').length =
          data.length + 2 := by
        simp only [List.length_cons, List.length_set]
      have e2M : data.length + 4 - 2 =
          (magic % 256 :: (magic >>> 8) % 256 :: data.set k b').length := by omega
      have e3M : data.length + 4 - 1 =
          (magic % 256 :: (magic >>> 8) % 256 :: data.set k b').length + 1 := by omega
      unfold _get_packet
      rw [e2M, e3M, getD_append_fst, getD_append_snd, List.take_left, le16_recon hcrclt]
      have hmodcrc : __crc_16 (magic % 256 :: (magic >>> 8) % 256 :: data.set k b') ≠ crc := by
        rw [hcrc, hpre, list_set_split data b' k hk]
        conv_rhs => rw [list_split_getD data k hk]
        exact crc_single_byte_ne (magic % 256 :: (magic >>> 8) % 256 :: data.take k)
          (data.drop (k + 1)) hb' (getD_lt_of_forall hd k hk) hne
      have hnc : ¬(crc = __crc_16 (magic % 256 :: (magic >>> 8) % 256 :: data.set k b')) :=
        fun he => hmodcrc he.symm
      rw [decide_eq_false hnc, Bool.and_false]
    rcases (by omega : k = data.length ∨ k = data.length + 1) with hkn | hkn
    · -- low CRC byte
      subst hkn
      rw [show data.length + 2 = pre.length + 0 by omega, getD_append_len] at hne
      simp only [List.getD_cons_zero] at hne
      rw [show data.length + 2 = pre.length + 0 by omega, set_append_len]
      simp only [List.set_cons_zero]
      unfold _get_packet
      rw [e2, e3, getD_append_fst, getD_append_snd, List.take_left, ← hcrc]
      have hneq : b' ||| (((crc >>> 8) % 256) <<< 8) ≠ crc := by
        rw [lor_shift8_eq _ hb', h8c, Nat.mod_eq_of_lt (by omega : crc / 256 < 256)]
        omega
      rw [decide_eq_false hneq, Bool.and_false]
    · -- high CRC byte
      subst hkn
      rw [show data.length + 1 + 2 = pre.length + 1 by omega, getD_append_len] at hne
      simp only [List.getD_cons_succ, List.getD_cons_zero] at hne
      rw [show data.length + 1 + 2 = pre.length + 1 by omega, set_append_len]
      simp only [List.set_cons_succ, List.set_cons_zero]
      unfold _get_packet
      rw [e2, e3, getD_append_fst, getD_append_snd, List.take_left, ← hcrc]
      have hneq : (crc % 256) ||| (b' <<< 8) ≠ crc := by
        rw [lor_shift8_eq _ (Nat.mod_lt _ (by norm_num))]
        rw [h8c, Nat.mod_eq_of_lt (by omega : crc / 256 < 256)] at hne
        omega
      rw [decide_eq_false hneq, Bool.and_false]

set_option maxRecDepth 4096 in
/-- Concrete instance of claim C1: the COMMAND_HEADER magic with payload
[222, 173] round-trips, and flipping the first byte of the frame to 1
makes the validation fail. -/
theorem crc_roundtrip_and_byte_flip_witness :
    0x1209 < 65536 ∧ (∀ b ∈ [222, 173], b < 256) ∧
    _get_packet 0x1209 (_set_packet 0x1209 [222, 173]) ([222, 173].length + 4) = true ∧
    _get_packet 0x1209 ((_set_packet 0x1209 [222, 173]).set 0 1) ([222, 173].length + 4) = false :=
  ⟨by decide, by decide,
   (crc_roundtrip_and_byte_flip 0x1209 [222, 173] (by decide) (by decide)).1,
   (crc_roundtrip_and_byte_flip 0x1209 [222, 173] (by decide) (by decide)).2 0
     (by decide) 1 (by decide) (by decide)⟩
